import Mathlib

/-!
# Verification of the options credit-spread backtest

Shallow embedding of the backtest loop of `src/main.py` (with the trade
record of `src/logger.py`), and proofs of the spec's claims about it.

Conventions of the embedding:
* Prices and strikes are rationals (`ℚ`).  A quote's close price is
  `Option ℚ`, `none` standing for a missing value (`NaN`); Python's
  `np.isnan p` check corresponds to matching on `none`.
* Timestamps within a trading day are minutes since local midnight
  (`Nat`); `ts.hour` is `ts / 60` and `ts.minute` is `ts % 60`.
* Calendar dates (trading day, contract expiration) are day ordinals
  (`Nat`); a `pd.Timestamp` for a date is its midnight, so the absolute
  time of minute `t` on day `d` is `d * 1440 + t` minutes.
* The iterative numeric kernels (`scipy.optimize.brentq` for implied
  volatility, `scipy.stats.norm.cdf` inside delta) are floating-point
  routines; the evaluator is parametrized over them (`ivFn`, `deltaFn`),
  while all control flow, guards and comparisons around them are
  embedded exactly.  The Black–Scholes delta itself is modelled over `ℝ`
  separately (`callDelta` below) for the analytic claims.
* `pandas` idioms: `df[...].values[0]` is "first matching row";
  `Series.unique()` keeps first occurrences in order; `argsort` /
  `sort_values` are modelled by a stable insertion sort (`sortByKey`).
-/

namespace Options

/-- Stable insertion of `a` into `l`, ordered by the key `f`. -/
def insertByKey (f : α → ℚ) (a : α) : List α → List α
  | [] => [a]
  | b :: l => if f a ≤ f b then a :: b :: l else b :: insertByKey f a l

/-- Stable insertion sort by the key `f` (models `np.argsort` /
`DataFrame.sort_values` on the corresponding key). -/
def sortByKey (f : α → ℚ) : List α → List α
  | [] => []
  | a :: l => insertByKey f a (sortByKey f l)

/-- Helper for `uniqueFirsts`: drop the values already `seen`. -/
def uniqueFirstsAux [DecidableEq α] (seen : List α) : List α → List α
  | [] => []
  | t :: ts =>
    if t ∈ seen then uniqueFirstsAux seen ts
    else t :: uniqueFirstsAux (t :: seen) ts

/-- First occurrences of each value, in order of first appearance
(models `pandas.Series.unique()`). -/
def uniqueFirsts [DecidableEq α] (l : List α) : List α :=
  uniqueFirstsAux [] l

/-- An option contract parsed from a file name
(`src/main.py` lines 37–46): identity, expiration date, call flag,
strike. -/
structure OptionContract where
  oid : Nat
  expiration : Nat
  isCall : Bool
  strike : ℚ
  deriving DecidableEq, Repr

/-- One row of the option quote table: contract identity, timestamp
(minute of day) and close price (`none` = `NaN`). -/
structure QuoteRow where
  oid : Nat
  ts : Nat
  price : Option ℚ
  deriving DecidableEq, Repr

/-- `rows[rows.ts == t][rows.oid == o]['c'].values[0]`, as an `Option`:
the close price of the first row of `rows` at timestamp `t` for contract
`o`; `none` when there is no such row or its price is `NaN`. -/
def firstPrice (rows : List QuoteRow) (t : Nat) (o : Nat) : Option ℚ :=
  match rows.filter (fun r => r.ts == t && r.oid == o) with
  | [] => none
  | r :: _ => r.price

/-- A looked-up price is valid when it is present and positive
(`not np.isnan(price) and price > 0`, `src/main.py` lines 123/181/197). -/
def validPrice : Option ℚ → Bool
  | some p => p > 0
  | none => false

/-- `active_calls[active_calls['strike'] == k].iloc[0]`: the first
contract of `A` carrying strike `k`. -/
def firstWithStrike (A : List OptionContract) (k : ℚ) : Option OptionContract :=
  (A.filter (fun c => c.strike == k)).head?

/-- The ATM candidate loop of `src/main.py` lines 119–127: try each
candidate strike in turn; at each strike consult the *first* contract of
`A` with that strike, and take it when its entry price is valid. -/
def atmScan (A : List OptionContract) (dOpts : List QuoteRow) (tE : Nat) :
    List ℚ → Option (OptionContract × ℚ)
  | [] => none
  | k :: ks =>
    match firstWithStrike A k with
    | none => atmScan A dOpts tE ks
    | some c =>
      match firstPrice dOpts tE c.oid with
      | some p => if p > 0 then some (c, p) else atmScan A dOpts tE ks
      | none => atmScan A dOpts tE ks

/-- ATM anchor selection (`src/main.py` lines 113–127): sort the strike
column of `A` by absolute distance to the spot `S` (`np.argsort` of
`|strikes - S|`) and run `atmScan` over it. -/
def atmSelect (A : List OptionContract) (dOpts : List QuoteRow) (tE : Nat)
    (S : ℚ) : Option (OptionContract × ℚ) :=
  atmScan A dOpts tE (sortByKey (fun k => |k - S|) (A.map (·.strike)))

/-- Time to expiry in years, in the embedding's minute unit:
`(expiration - ts_entry).total_seconds() / (365.25 * 86400)` becomes
`(expiration·1440 - entryAbs) / (365.25·1440)` with `365.25·1440 =
525960`. `entryAbs` is the absolute entry time in minutes. -/
def yearsToExpiry (expiration : Nat) (entryAbs : ℚ) : ℚ :=
  ((expiration : ℚ) * 1440 - entryAbs) / 525960

/-- Per-contract delta of `src/main.py` lines 153–168: `NaN` (here
`none`) when the strike or the time to expiry is non-positive, otherwise
the numeric kernel's value. -/
def contractDelta (deltaFn : ℚ → ℚ → ℚ → ℚ → ℚ) (S IV entryAbs : ℚ)
    (c : OptionContract) : Option ℚ :=
  if c.strike ≤ 0 then none
  else if yearsToExpiry c.expiration entryAbs ≤ 0 then none
  else some (deltaFn S c.strike IV (yearsToExpiry c.expiration entryAbs))

/-- The sell-option loop of `src/main.py` lines 179–183: first
delta-annotated candidate whose entry price is valid, returned with its
delta and that price. -/
def firstValidLeg (dOpts : List QuoteRow) (tE : Nat) :
    List (OptionContract × ℚ) → Option (OptionContract × ℚ × ℚ)
  | [] => none
  | (c, d) :: rest =>
    match firstPrice dOpts tE c.oid with
    | some p => if p > 0 then some (c, d, p) else firstValidLeg dOpts tE rest
    | none => firstValidLeg dOpts tE rest

/-- Sell-leg candidates (`src/main.py` line 171): contracts with a
computed delta `< 0.35`, sorted by delta descending (stable model of
`sort_values('delta', ascending=False)`). -/
def sellCandidates (deltas : OptionContract → Option ℚ)
    (A : List OptionContract) : List (OptionContract × ℚ) :=
  sortByKey (fun cd => -cd.2)
    (A.filterMap (fun c =>
      (deltas c).bind (fun d => if d < 7/20 then some (c, d) else none)))

/-- Buy-leg candidates (`src/main.py` line 193): contracts with strike
`≥ sell_strike + 5`, sorted by strike ascending.  The delta entry of the
pair is unused for the buy leg and set to `0`. -/
def buyCandidates (A : List OptionContract) (sellStrike : ℚ) :
    List (OptionContract × ℚ) :=
  sortByKey (fun cd => cd.1.strike)
    ((A.filter (fun c => c.strike ≥ sellStrike + 5)).map (fun c => (c, 0)))

/-- The exit scan of `src/main.py` lines 216–235 over the day's
timestamp list: at each timestamp with `ts.hour ≥ 14 and ts.minute ≥ 30`
where both legs have present quotes, exit — with P&L `credit - stop`
when the spread reached the stop-loss, else `credit - spread` — and stop
scanning.  Returns the exit P&L and exit timestamp. -/
def exitScan (rows : List QuoteRow) (sellId buyId : Nat) (credit stop : ℚ) :
    List Nat → Option (ℚ × Nat)
  | [] => none
  | t :: ts =>
    if t / 60 ≥ 14 && t % 60 ≥ 30 then
      match firstPrice rows t sellId, firstPrice rows t buyId with
      | some sp, some bp =>
        if sp - bp ≥ stop then some (credit - stop, t)
        else some (credit - (sp - bp), t)
      | _, _ => exitScan rows sellId buyId credit stop ts
    else exitScan rows sellId buyId credit stop ts

/-- `day_ts` of `src/main.py` line 216: the distinct timestamps strictly
after entry, in order of first appearance. -/
def dayTs (rows : List QuoteRow) (tE : Nat) : List Nat :=
  uniqueFirsts ((rows.filter (fun r => r.ts > tE)).map (·.ts))

/-- The fallback close exit of `src/main.py` lines 237–248: at the day's
last timestamp, require both legs' quotes to be present and exit with
P&L `credit - spread` (no stop-loss branch here). -/
def closeExit (rows : List QuoteRow) (sellId buyId : Nat) (credit : ℚ) :
    Option (ℚ × Nat) :=
  match (rows.map (·.ts)).max? with
  | none => none
  | some tc =>
    match firstPrice rows tc sellId, firstPrice rows tc buyId with
    | some sp, some bp => some (credit - (sp - bp), tc)
    | _, _ => none

/-- The first equity row whose timestamp is nearest to `tE`
(`equity_ts_diff.argmin()` of `src/main.py` lines 92–94; `np.argmin`
returns the first index attaining the minimum). -/
def closestRow (tE : Nat) : List (Nat × ℚ) → Option (Nat × ℚ)
  | [] => none
  | x :: xs =>
    match closestRow tE xs with
    | none => some x
    | some y =>
      if ((x.1 : ℤ) - tE).natAbs ≤ ((y.1 : ℤ) - tE).natAbs then some x
      else some y

/-- The trade record appended by `StrategyLogger.log_trade`
(`src/logger.py` lines 73–89); `atmStrike`, `iv` and `sellDelta` are the
keyword parameters that default to `None`. -/
structure Trade where
  date : Nat
  entryTime : Nat
  exitTime : Nat
  sellStrike : ℚ
  buyStrike : ℚ
  credit : ℚ
  exitPnl : ℚ
  totalPnl : ℚ
  atmStrike : Option ℚ
  iv : Option ℚ
  sellDelta : Option ℚ
  deriving DecidableEq, Repr

/-- The trade record together with the evaluator's local variables that
produced it (`sell_option`/`buy_option`/`sell_price`/`buy_price`/
`atm_price` of `src/main.py`). -/
structure ExtTrade where
  trade : Trade
  sellId : Nat
  buyId : Nat
  sellPrice : ℚ
  buyPrice : ℚ
  atmPrice : ℚ
  deriving DecidableEq, Repr

/-- The data visible to one iteration of the trading-day loop of
`src/main.py`: the day's date, the previous day's `ma5_change` (`none` =
`NaN`), the day's equity rows `(ts, close)`, the global contract table
`option_info_df`, and the day's option quote rows. -/
structure DayInput where
  day : Nat
  ma5ChangePrev : Option ℚ
  dayEquity : List (Nat × ℚ)
  optionInfo : List OptionContract
  dayOptionsAll : List QuoteRow
  deriving Repr

/-- The trend filter of `src/main.py` line 72: `ma5_change_prev > 1`.
A missing (`NaN`) previous change compares as not-greater in Python, so
it does not trigger the skip. -/
def trendSkip : Option ℚ → Bool
  | some x => x > 1
  | none => false

/-- `active_calls` of `src/main.py` line 100: contracts expiring
strictly after the trading day, of call type. -/
def activeCallsOf (inp : DayInput) : List OptionContract :=
  inp.optionInfo.filter (fun c => c.expiration > inp.day && c.isCall)

/-- `day_options` of `src/main.py` lines 106–107: the day's quote rows
at the entry timestamp, inner-joined with the active calls. -/
def entryOptsOf (inp : DayInput) (tsEntry : Nat) : List QuoteRow :=
  inp.dayOptionsAll.filter (fun r =>
    r.ts == tsEntry && (activeCallsOf inp).any (fun c => c.oid == r.oid))

/-- Absolute entry time in minutes (day midnight + entry minute). -/
def entryAbs (inp : DayInput) (tsEntry : Nat) : ℚ :=
  (inp.day : ℚ) * 1440 + (tsEntry : ℚ)

/-- Steps 1–2 of the evaluation (`src/main.py` lines 71–98): trend
filter, data-presence checks, entry timestamp (minimum quote timestamp
of the day) and entry spot price (close of the equity row nearest the
entry timestamp).  Returns `(tsEntry, S)`. -/
def entryStage (inp : DayInput) : Option (Nat × ℚ) :=
  if trendSkip inp.ma5ChangePrev then none
  else if inp.dayEquity.isEmpty then none
  else if inp.dayOptionsAll.isEmpty then none
  else
    match (inp.dayOptionsAll.map (·.ts)).min? with
    | none => none
    | some tsEntry =>
      match closestRow tsEntry inp.dayEquity with
      | none => none
      | some eqRow =>
        if eqRow.2 ≤ 0 then none else some (tsEntry, eqRow.2)

/-- Steps 3–4 (`src/main.py` lines 100–151): ATM anchor selection and
implied-volatility solve with its acceptance band.  Returns
`(atmC, atmP, IV)`. -/
def ivStage (ivFn : ℚ → ℚ → ℚ → ℚ → Option ℚ) (inp : DayInput)
    (tsEntry : Nat) (S : ℚ) : Option (OptionContract × ℚ × ℚ) :=
  if (activeCallsOf inp).isEmpty then none
  else if (entryOptsOf inp tsEntry).isEmpty then none
  else
    match atmSelect (activeCallsOf inp) (entryOptsOf inp tsEntry)
        tsEntry S with
    | none => none
    | some (atmC, atmP) =>
      if yearsToExpiry atmC.expiration (entryAbs inp tsEntry) ≤ 0 then none
      else
        match ivFn S atmC.strike
            (yearsToExpiry atmC.expiration (entryAbs inp tsEntry)) atmP with
        | none => none
        | some IV =>
          if IV ≤ 0 then none
          else if IV > 3/4 then none
          else some (atmC, atmP, IV)

/-- Steps 5–8 (`src/main.py` lines 153–211): per-contract deltas,
sell-leg and buy-leg selection, credit check.  Returns
`(sellC, sellD, sellP, buyC, buyP)`. -/
def legsStage (deltaFn : ℚ → ℚ → ℚ → ℚ → ℚ) (inp : DayInput)
    (tsEntry : Nat) (S IV : ℚ) :
    Option (OptionContract × ℚ × ℚ × OptionContract × ℚ) :=
  match firstValidLeg (entryOptsOf inp tsEntry) tsEntry
      (sellCandidates (contractDelta deltaFn S IV (entryAbs inp tsEntry))
        (activeCallsOf inp)) with
  | none => none
  | some (sellC, sellD, sellP) =>
    match firstValidLeg (entryOptsOf inp tsEntry) tsEntry
        (buyCandidates (activeCallsOf inp) sellC.strike) with
    | none => none
    | some (buyC, _buyD, buyP) =>
      if sellP - buyP ≤ 1/4 then none
      else some (sellC, sellD, sellP, buyC, buyP)

/-- Step 9 (`src/main.py` lines 213–248): exit scan over the day's later
timestamps, with the close-of-day fallback.  Returns
`(exitPnl, exitTime)`. -/
def exitStage (inp : DayInput) (tsEntry : Nat) (sellId buyId : Nat)
    (credit : ℚ) : Option (ℚ × Nat) :=
  match exitScan inp.dayOptionsAll sellId buyId credit (credit + 3/100)
      (dayTs inp.dayOptionsAll tsEntry) with
  | some out => some out
  | none => closeExit inp.dayOptionsAll sellId buyId credit

/-- Step 10 (`src/main.py` lines 250–263): the record handed to
`logger.log_trade`.  `atmStrike`, `iv` and `sellDelta` are `none`
because the call at lines 254–263 omits those keyword arguments. -/
def mkTrade (inp : DayInput) (tsEntry : Nat) (sellC buyC : OptionContract)
    (sellP buyP atmP pnl : ℚ) (tEx : Nat) : ExtTrade :=
  { trade :=
      { date := inp.day
        entryTime := tsEntry
        exitTime := tEx
        sellStrike := sellC.strike
        buyStrike := buyC.strike
        credit := sellP - buyP
        exitPnl := pnl
        totalPnl := 200 * pnl - 5/2
        atmStrike := none
        iv := none
        sellDelta := none }
    sellId := sellC.oid
    buyId := buyC.oid
    sellPrice := sellP
    buyPrice := buyP
    atmPrice := atmP }

/-- One iteration of the trading-day loop of `src/main.py` lines 71–263
(steps 1–10 of the spec), parametrized over the numeric kernels:
`ivFn S K T C` models the `brentq` implied-volatility solve (`none` =
exception/`NaN`), `deltaFn S K σ T` models `norm.cdf(d1)`.  Returns
`none` for a SKIP, otherwise the recorded trade with the selection
locals. -/
def evalDayExt (deltaFn : ℚ → ℚ → ℚ → ℚ → ℚ)
    (ivFn : ℚ → ℚ → ℚ → ℚ → Option ℚ) (inp : DayInput) : Option ExtTrade :=
  match entryStage inp with
  | none => none
  | some (tsEntry, S) =>
    match ivStage ivFn inp tsEntry S with
    | none => none
    | some (_atmC, atmP, IV) =>
      match legsStage deltaFn inp tsEntry S IV with
      | none => none
      | some (sellC, _sellD, sellP, buyC, buyP) =>
        match exitStage inp tsEntry sellC.oid buyC.oid (sellP - buyP) with
        | none => none
        | some (pnl, tEx) =>
          some (mkTrade inp tsEntry sellC buyC sellP buyP atmP pnl tEx)

/-- The trade (if any) recorded for one trading day. -/
def evalDay (deltaFn : ℚ → ℚ → ℚ → ℚ → ℚ)
    (ivFn : ℚ → ℚ → ℚ → ℚ → Option ℚ) (inp : DayInput) : Option Trade :=
  (evalDayExt deltaFn ivFn inp).map (·.trade)

/-- 5-day rolling mean of the daily closes at index `i`
(`rolling(window=5).mean()` of `src/main.py` line 34): `none` (`NaN`)
until five observations are available. -/
def ma5At (xs : List ℚ) (i : Nat) : Option ℚ :=
  if 4 ≤ i ∧ i < xs.length then some (((xs.drop (i - 4)).take 5).sum / 5)
  else none

/-- `ma5_change` at index `i` (`pct_change() * 100` of `src/main.py`
line 35): `none` when either the current or the previous rolling mean is
missing. -/
def ma5ChangeAt (xs : List ℚ) (i : Nat) : Option ℚ :=
  match i with
  | 0 => none
  | j + 1 =>
    match ma5At xs j, ma5At xs (j + 1) with
    | some a, some b => some ((b - a) / a * 100)
    | _, _ => none

/-- One trading day's slice of the loaded data: the date, the day's
equity rows and the day's option quote rows.  Trading days are the
sorted distinct dates of the equity data (`src/main.py` line 60), so in
a run produced by the loader every `RunDay` has at least one equity row
and dates are strictly increasing. -/
structure RunDay where
  date : Nat
  equityRows : List (Nat × ℚ)
  optionRows : List QuoteRow
  deriving Repr

/-- Daily close series: the last equity close of each day
(`groupby(date)['c'].last()` of `src/main.py` line 31).  The `getD 0`
padding is unreachable for loader-produced runs, where every trading day
has equity rows. -/
def dailyCloses (days : List RunDay) : List ℚ :=
  days.map (fun d => ((d.equityRows.map (·.2)).getLast?).getD 0)

/-- The data slice handed to day number `i` of the loop: the day's own
rows, the global contract table, and the previous day's `ma5_change`. -/
def dayInputAt (optInfo : List OptionContract) (closes : List ℚ) (i : Nat)
    (d : RunDay) : DayInput :=
  { day := d.date
    ma5ChangePrev := ma5ChangeAt closes (i - 1)
    dayEquity := d.equityRows
    optionInfo := optInfo
    dayOptionsAll := d.optionRows }

/-- The trading-day loop from index `i` on: day 0 is skipped (`No
previous MA data`, `src/main.py` lines 64–66), every later day is
evaluated with its predecessor's `ma5_change`. -/
def runAux (deltaFn : ℚ → ℚ → ℚ → ℚ → ℚ)
    (ivFn : ℚ → ℚ → ℚ → ℚ → Option ℚ) (optInfo : List OptionContract)
    (closes : List ℚ) : Nat → List RunDay → List Trade
  | _, [] => []
  | i, d :: rest =>
    match
      (if i = 0 then none
       else evalDay deltaFn ivFn (dayInputAt optInfo closes i d)) with
    | some t => t :: runAux deltaFn ivFn optInfo closes (i + 1) rest
    | none => runAux deltaFn ivFn optInfo closes (i + 1) rest

/-- The whole backtest (`src/main.py` lines 60–263): the ledger of
trades in day order. -/
def runBacktest (deltaFn : ℚ → ℚ → ℚ → ℚ → ℚ)
    (ivFn : ℚ → ℚ → ℚ → ℚ → Option ℚ) (optInfo : List OptionContract)
    (days : List RunDay) : List Trade :=
  runAux deltaFn ivFn optInfo (dailyCloses days) 0 days

/-! ## Pricing Engine over the reals

The delta formula of `src/main.py` lines 164–165, modelled over `ℝ`
with the exact standard normal distribution in place of the
floating-point `scipy.stats.norm.cdf`. -/

/-- Cumulative distribution function of the standard normal
distribution: the `gaussianReal 0 1` measure of `(-∞, x]`
(`scipy.stats.norm.cdf` in `src/main.py`). -/
noncomputable def stdNormalCDF (x : ℝ) : ℝ :=
  (ProbabilityTheory.gaussianReal 0 1 (Set.Iic x)).toReal

/-- Black–Scholes `d1` of `src/main.py` line 164:
`(log(S/K) + (r + σ²/2)·T) / (σ·√T)`. -/
noncomputable def d1BS (S K r T σ : ℝ) : ℝ :=
  (Real.log (S / K) + (r + σ ^ 2 / 2) * T) / (σ * Real.sqrt T)

/-- Call delta `N(d1)` of `src/main.py` line 165. -/
noncomputable def callDelta (S K r T σ : ℝ) : ℝ :=
  stdNormalCDF (d1BS S K r T σ)

theorem stdNormalCDF_mono {x y : ℝ} (h : x ≤ y) :
    stdNormalCDF x ≤ stdNormalCDF y :=
  ENNReal.toReal_mono (MeasureTheory.measure_ne_top _ _)
    (MeasureTheory.measure_mono (Set.Iic_subset_Iic.mpr h))

theorem stdNormalCDF_nonneg (x : ℝ) : 0 ≤ stdNormalCDF x :=
  ENNReal.toReal_nonneg

theorem stdNormalCDF_le_one (x : ℝ) : stdNormalCDF x ≤ 1 := by
  have h := MeasureTheory.prob_le_one
    (μ := ProbabilityTheory.gaussianReal 0 1) (s := Set.Iic x)
  have := ENNReal.toReal_mono ENNReal.one_ne_top h
  simpa using this

theorem d1BS_mono_spot {S1 S2 K r T σ : ℝ} (hS1 : 0 < S1) (h12 : S1 ≤ S2)
    (hK : 0 < K) (hT : 0 < T) (hσ : 0 < σ) :
    d1BS S1 K r T σ ≤ d1BS S2 K r T σ := by
  unfold d1BS
  have hden : 0 < σ * Real.sqrt T := by positivity
  have hlog : Real.log (S1 / K) ≤ Real.log (S2 / K) :=
    Real.log_le_log (by positivity) (by gcongr)
  gcongr

theorem d1BS_anti_strike {S K1 K2 r T σ : ℝ} (hS : 0 < S) (hK1 : 0 < K1)
    (h12 : K1 ≤ K2) (hT : 0 < T) (hσ : 0 < σ) :
    d1BS S K2 r T σ ≤ d1BS S K1 r T σ := by
  unfold d1BS
  have hden : 0 < σ * Real.sqrt T := by positivity
  have hK2 : 0 < K2 := hK1.trans_le h12
  have hlog : Real.log (S / K2) ≤ Real.log (S / K1) :=
    Real.log_le_log (div_pos hS hK2) (by gcongr)
  gcongr

/-! ## Concrete test inputs

Small synthetic days used to settle the spec's concrete examples and to
witness the general theorems.  Times: 570 = 9:30, 875 = 14:35,
900 = 15:00, 935 = 15:35. -/

/-- Numeric delta kernel used by the examples: delta `0.30` at strike
100 and `0.20` elsewhere (the two-candidate example of the spec). -/
def deltaFnEx : ℚ → ℚ → ℚ → ℚ → ℚ := fun _ K _ _ =>
  if K = 100 then 3/10 else 1/5

/-- Numeric implied-volatility kernel used by the examples: always
solves to `σ = 0.5` (inside the `(0, 0.75]` acceptance band). -/
def ivFnEx : ℚ → ℚ → ℚ → ℚ → Option ℚ := fun _ _ _ _ => some (1/2)

/-- Call contract, id 0, expiring day 21, strike 100. -/
def con0 : OptionContract := ⟨0, 21, true, 100⟩

/-- Call contract, id 1, expiring day 22, strike 105. -/
def con1 : OptionContract := ⟨1, 22, true, 105⟩

/-- A day that trades: entry at 9:30 with prices 0.55/0.25 (credit
0.30), one post-entry timestamp 14:35 where the spread is
0.50 − 0.15 = 0.35 ≥ stop-loss 0.33. -/
def goodDay : DayInput :=
  { day := 20
    ma5ChangePrev := some 0
    dayEquity := [(570, 100)]
    optionInfo := [con0, con1]
    dayOptionsAll :=
      [⟨0, 570, some (11/20)⟩, ⟨1, 570, some (1/4)⟩,
       ⟨0, 875, some (1/2)⟩, ⟨1, 875, some (3/20)⟩] }

/-- The trade recorded for `goodDay`. -/
def goodTrade : Trade :=
  { date := 20, entryTime := 570, exitTime := 875, sellStrike := 100
    buyStrike := 105, credit := 3/10, exitPnl := -3/100, totalPnl := -17/2
    atmStrike := none, iv := none, sellDelta := none }

/-- Like `goodDay`, but the post-entry quotes sit at 15:00 (spread
0.35, would trigger the stop) and at 15:35 (spread 0.25). -/
def dayC1 : DayInput :=
  { goodDay with
    dayOptionsAll :=
      [⟨0, 570, some (11/20)⟩, ⟨1, 570, some (1/4)⟩,
       ⟨0, 900, some (1/2)⟩, ⟨1, 900, some (3/20)⟩,
       ⟨0, 935, some (2/5)⟩, ⟨1, 935, some (3/20)⟩] }

/-- The selection record of the `goodDay` trade: sell contract 0 at
0.55, buy contract 1 at 0.25, ATM price 0.55. -/
def goodExt : ExtTrade := ⟨goodTrade, 0, 1, 11/20, 1/4, 11/20⟩

/-- The trade recorded for `dayC1`: the evaluator exits at 935
(15:35), not at 900 (15:00). -/
def tradeC1 : Trade :=
  { goodTrade with exitTime := 935, exitPnl := 1/20, totalPnl := 15/2 }

/-- The trade recorded for `dayC7`: the zero sell quote at the exit
check is used in the spread, so the exit P&L is
`0.30 - (0 - 0.10) = 0.40`. -/
def tradeC7 : Trade :=
  { goodTrade with exitPnl := 2/5, totalPnl := 155/2 }

/-- Two active calls sharing strike 100; only the second (id 1) is
quoted at entry. -/
def dayC4 : DayInput :=
  { day := 20
    ma5ChangePrev := some 0
    dayEquity := [(570, 100)]
    optionInfo := [⟨0, 21, true, 100⟩, ⟨1, 22, true, 100⟩]
    dayOptionsAll := [⟨1, 570, some 5⟩] }

/-- Like `goodDay`, but at the 14:35 exit check the sell leg is quoted
at exactly 0 (present, non-positive) and the buy leg at 0.10. -/
def dayC7 : DayInput :=
  { goodDay with
    dayOptionsAll :=
      [⟨0, 570, some (11/20)⟩, ⟨1, 570, some (1/4)⟩,
       ⟨0, 875, some 0⟩, ⟨1, 875, some (1/10)⟩] }

/-- A two-day run: day 10 (index 0, always skipped) followed by
`goodDay`'s data on day 20.  With only two daily closes, every
`ma5_change` value is missing. -/
def runC6 : List RunDay :=
  [⟨10, [(570, 100)], []⟩, ⟨20, goodDay.dayEquity, goodDay.dayOptionsAll⟩]

/-! ## Lemmas about the sorting and scanning helpers -/

theorem mem_insertByKey {f : α → ℚ} {a b : α} {l : List α} :
    a ∈ insertByKey f b l ↔ a = b ∨ a ∈ l := by
  induction l with
  | nil => simp [insertByKey]
  | cons c l ih =>
    simp only [insertByKey]
    split
    · simp
    · simp only [List.mem_cons, ih]
      tauto

theorem mem_sortByKey {f : α → ℚ} {a : α} {l : List α} :
    a ∈ sortByKey f l ↔ a ∈ l := by
  induction l with
  | nil => simp [sortByKey]
  | cons b l ih => simp [sortByKey, mem_insertByKey, ih]

theorem pairwise_insertByKey {f : α → ℚ} {b : α} {l : List α}
    (h : l.Pairwise (fun x y => f x ≤ f y)) :
    (insertByKey f b l).Pairwise (fun x y => f x ≤ f y) := by
  induction l with
  | nil => simp [insertByKey]
  | cons c l ih =>
    rcases List.pairwise_cons.mp h with ⟨hc, hl⟩
    simp only [insertByKey]
    split
    · next hbc =>
      refine List.pairwise_cons.mpr ⟨?_, h⟩
      intro x hx
      rcases List.mem_cons.mp hx with rfl | hx
      · exact hbc
      · exact le_trans hbc (hc x hx)
    · next hbc =>
      push_neg at hbc
      refine List.pairwise_cons.mpr ⟨?_, ih hl⟩
      intro x hx
      rcases mem_insertByKey.mp hx with rfl | hx
      · exact le_of_lt hbc
      · exact hc x hx

theorem pairwise_sortByKey (f : α → ℚ) (l : List α) :
    (sortByKey f l).Pairwise (fun x y => f x ≤ f y) := by
  induction l with
  | nil => simp [sortByKey]
  | cons b l ih => exact pairwise_insertByKey ih

theorem firstWithStrike_strike {A : List OptionContract} {k : ℚ}
    {c : OptionContract} (h : firstWithStrike A k = some c) : c.strike = k := by
  unfold firstWithStrike at h
  cases hfl : A.filter (fun c => c.strike == k) with
  | nil => rw [hfl] at h; simp at h
  | cons d t =>
    rw [hfl] at h
    simp only [List.head?] at h
    cases h
    have hd : c ∈ A.filter (fun c => c.strike == k) :=
      hfl ▸ List.mem_cons_self c t
    simpa using (List.of_mem_filter hd)

theorem firstWithStrike_mem {A : List OptionContract} {k : ℚ}
    {c : OptionContract} (h : firstWithStrike A k = some c) : c ∈ A := by
  unfold firstWithStrike at h
  cases hfl : A.filter (fun c => c.strike == k) with
  | nil => rw [hfl] at h; simp at h
  | cons d t =>
    rw [hfl] at h
    simp only [List.head?] at h
    cases h
    exact List.mem_of_mem_filter (hfl ▸ List.mem_cons_self c t)

/-- Availability of a candidate strike in the ATM loop: the first
contract of `A` at that strike has a present, positive entry price. -/
def availStrike (A : List OptionContract) (dOpts : List QuoteRow) (tE : Nat)
    (k : ℚ) : Bool :=
  match firstWithStrike A k with
  | some c => validPrice (firstPrice dOpts tE c.oid)
  | none => false

theorem atmScan_eq_none {A : List OptionContract} {dOpts : List QuoteRow}
    {tE : Nat} {ks : List ℚ} :
    atmScan A dOpts tE ks = none ↔
      ∀ k ∈ ks, availStrike A dOpts tE k = false := by
  induction ks with
  | nil => simp [atmScan]
  | cons k ks ih =>
    simp only [List.mem_cons, forall_eq_or_imp]
    cases hfw : firstWithStrike A k with
    | none =>
      have hav : availStrike A dOpts tE k = false := by
        simp [availStrike, hfw]
      simp only [atmScan, hfw, ih, hav, true_and]
    | some c =>
      cases hfp : firstPrice dOpts tE c.oid with
      | none =>
        have hav : availStrike A dOpts tE k = false := by
          simp [availStrike, hfw, hfp, validPrice]
        simp only [atmScan, hfw, hfp, ih, hav, true_and]
      | some p =>
        by_cases hp : p > 0
        · have hav : availStrike A dOpts tE k = true := by
            simp [availStrike, hfw, hfp, validPrice, hp]
          simp [atmScan, hfw, hfp, hp, hav]
        · have hav : availStrike A dOpts tE k = false := by
            simp [availStrike, hfw, hfp, validPrice, hp]
          simp only [atmScan, hfw, hfp, if_neg hp, ih, hav, true_and]

theorem atmScan_eq_some {A : List OptionContract} {dOpts : List QuoteRow}
    {tE : Nat} {ks : List ℚ} {c : OptionContract} {p : ℚ} {f : ℚ → ℚ}
    (hsort : ks.Pairwise (fun a b => f a ≤ f b))
    (h : atmScan A dOpts tE ks = some (c, p)) :
    ∃ k ∈ ks, firstWithStrike A k = some c ∧
      firstPrice dOpts tE c.oid = some p ∧ 0 < p ∧
      ∀ k' ∈ ks, availStrike A dOpts tE k' = true → f k ≤ f k' := by
  induction ks with
  | nil => simp [atmScan] at h
  | cons k ks ih =>
    rcases List.pairwise_cons.mp hsort with ⟨hk, hks⟩
    cases hfw : firstWithStrike A k with
    | none =>
      rw [show atmScan A dOpts tE (k :: ks) = atmScan A dOpts tE ks by
        simp [atmScan, hfw]] at h
      rcases ih hks h with ⟨k0, hk0, hfw0, hfp0, hp0, hmin⟩
      refine ⟨k0, List.mem_cons_of_mem _ hk0, hfw0, hfp0, hp0, ?_⟩
      intro k' hk' hav
      rcases List.mem_cons.mp hk' with rfl | hk'
      · exact absurd hav (by simp [availStrike, hfw])
      · exact hmin k' hk' hav
    | some c0 =>
      cases hfp : firstPrice dOpts tE c0.oid with
      | none =>
        rw [show atmScan A dOpts tE (k :: ks) = atmScan A dOpts tE ks by
          simp [atmScan, hfw, hfp]] at h
        rcases ih hks h with ⟨k0, hk0, hfw0, hfp0, hp0, hmin⟩
        refine ⟨k0, List.mem_cons_of_mem _ hk0, hfw0, hfp0, hp0, ?_⟩
        intro k' hk' hav
        rcases List.mem_cons.mp hk' with rfl | hk'
        · exact absurd hav (by simp [availStrike, hfw, hfp, validPrice])
        · exact hmin k' hk' hav
      | some q =>
        by_cases hq : q > 0
        · rw [show atmScan A dOpts tE (k :: ks) = some (c0, q) by
            simp [atmScan, hfw, hfp, hq]] at h
          cases h
          refine ⟨k, List.mem_cons_self _ _, hfw, hfp, hq, ?_⟩
          intro k' hk' _
          rcases List.mem_cons.mp hk' with rfl | hk'
          · exact le_refl _
          · exact hk k' hk'
        · rw [show atmScan A dOpts tE (k :: ks) = atmScan A dOpts tE ks by
            simp [atmScan, hfw, hfp, hq]] at h
          rcases ih hks h with ⟨k0, hk0, hfw0, hfp0, hp0, hmin⟩
          refine ⟨k0, List.mem_cons_of_mem _ hk0, hfw0, hfp0, hp0, ?_⟩
          intro k' hk' hav
          rcases List.mem_cons.mp hk' with rfl | hk'
          · exact absurd hav (by simp [availStrike, hfw, hfp, validPrice, hq])
          · exact hmin k' hk' hav

theorem firstValidLeg_eq_some {dOpts : List QuoteRow} {tE : Nat}
    {l : List (OptionContract × ℚ)} {c : OptionContract} {δ p : ℚ}
    (h : firstValidLeg dOpts tE l = some (c, δ, p)) :
    (c, δ) ∈ l ∧ firstPrice dOpts tE c.oid = some p ∧ 0 < p := by
  induction l with
  | nil => simp [firstValidLeg] at h
  | cons cd l ih =>
    obtain ⟨c', δ'⟩ := cd
    cases hfp : firstPrice dOpts tE c'.oid with
    | none =>
      rw [show firstValidLeg dOpts tE ((c', δ') :: l) = firstValidLeg dOpts tE l by
        simp [firstValidLeg, hfp]] at h
      rcases ih h with ⟨hm, hfp0, hp0⟩
      exact ⟨List.mem_cons_of_mem _ hm, hfp0, hp0⟩
    | some q =>
      by_cases hq : q > 0
      · rw [show firstValidLeg dOpts tE ((c', δ') :: l) = some (c', δ', q) by
          simp [firstValidLeg, hfp, hq]] at h
        cases h
        exact ⟨List.mem_cons_self _ _, hfp, hq⟩
      · rw [show firstValidLeg dOpts tE ((c', δ') :: l) = firstValidLeg dOpts tE l by
          simp [firstValidLeg, hfp, hq]] at h
        rcases ih h with ⟨hm, hfp0, hp0⟩
        exact ⟨List.mem_cons_of_mem _ hm, hfp0, hp0⟩

theorem firstValidLeg_min {f : OptionContract × ℚ → ℚ} {dOpts : List QuoteRow}
    {tE : Nat} {l : List (OptionContract × ℚ)} {c : OptionContract} {δ p : ℚ}
    (hsort : l.Pairwise (fun x y => f x ≤ f y))
    (h : firstValidLeg dOpts tE l = some (c, δ, p)) :
    ∀ x ∈ l, validPrice (firstPrice dOpts tE x.1.oid) = true → f (c, δ) ≤ f x := by
  induction l with
  | nil => simp [firstValidLeg] at h
  | cons cd l ih =>
    obtain ⟨c', δ'⟩ := cd
    rcases List.pairwise_cons.mp hsort with ⟨hhead, htail⟩
    cases hfp : firstPrice dOpts tE c'.oid with
    | none =>
      rw [show firstValidLeg dOpts tE ((c', δ') :: l) = firstValidLeg dOpts tE l by
        simp [firstValidLeg, hfp]] at h
      intro x hx hav
      rcases List.mem_cons.mp hx with rfl | hx
      · exact absurd hav (by simp [hfp, validPrice])
      · exact ih htail h x hx hav
    | some q =>
      by_cases hq : q > 0
      · rw [show firstValidLeg dOpts tE ((c', δ') :: l) = some (c', δ', q) by
          simp [firstValidLeg, hfp, hq]] at h
        cases h
        intro x hx _
        rcases List.mem_cons.mp hx with rfl | hx
        · exact le_refl _
        · exact hhead x hx
      · rw [show firstValidLeg dOpts tE ((c', δ') :: l) = firstValidLeg dOpts tE l by
          simp [firstValidLeg, hfp, hq]] at h
        intro x hx hav
        rcases List.mem_cons.mp hx with rfl | hx
        · exact absurd hav (by simp [hfp, validPrice, hq])
        · exact ih htail h x hx hav

theorem mem_sellCandidates {deltas : OptionContract → Option ℚ}
    {A : List OptionContract} {c : OptionContract} {δ : ℚ} :
    (c, δ) ∈ sellCandidates deltas A ↔
      c ∈ A ∧ deltas c = some δ ∧ δ < 7/20 := by
  unfold sellCandidates
  rw [mem_sortByKey, List.mem_filterMap]
  constructor
  · rintro ⟨a, ha, hfn⟩
    rcases Option.bind_eq_some.mp hfn with ⟨d, hda, hif⟩
    by_cases hd : d < 7/20
    · rw [if_pos hd] at hif
      cases hif
      exact ⟨ha, hda, hd⟩
    · rw [if_neg hd] at hif; simp at hif
  · rintro ⟨hc, hd, hlt⟩
    exact ⟨c, hc, by rw [hd]; simp [hlt]⟩

theorem mem_buyCandidates {A : List OptionContract} {s : ℚ}
    {c : OptionContract} {z : ℚ} :
    (c, z) ∈ buyCandidates A s ↔ c ∈ A ∧ s + 5 ≤ c.strike ∧ z = 0 := by
  unfold buyCandidates
  rw [mem_sortByKey, List.mem_map]
  constructor
  · rintro ⟨a, ha, heq⟩
    obtain ⟨rfl, rfl⟩ : a = c ∧ (0 : ℚ) = z := by
      constructor <;> [exact congrArg Prod.fst heq; exact congrArg Prod.snd heq]
    rcases List.mem_filter.mp ha with ⟨hmem, hcond⟩
    exact ⟨hmem, by simpa using hcond, rfl⟩
  · rintro ⟨hc, hs, rfl⟩
    exact ⟨c, List.mem_filter.mpr ⟨hc, by simpa using hs⟩, rfl⟩

theorem exitScan_eq_some {rows : List QuoteRow} {sellId buyId : Nat}
    {credit stop pnl : ℚ} {ts : List Nat} {t : Nat}
    (h : exitScan rows sellId buyId credit stop ts = some (pnl, t)) :
    t ∈ ts ∧ 14 ≤ t / 60 ∧ 30 ≤ t % 60 ∧
      ∃ sp bp, firstPrice rows t sellId = some sp ∧
        firstPrice rows t buyId = some bp ∧
        ((stop ≤ sp - bp ∧ pnl = credit - stop) ∨
          (¬ stop ≤ sp - bp ∧ pnl = credit - (sp - bp))) := by
  induction ts with
  | nil => simp [exitScan] at h
  | cons u ts ih =>
    by_cases hq : u / 60 ≥ 14 && u % 60 ≥ 30
    · rw [show exitScan rows sellId buyId credit stop (u :: ts) =
          (match firstPrice rows u sellId, firstPrice rows u buyId with
           | some sp, some bp =>
             if sp - bp ≥ stop then some (credit - stop, u)
             else some (credit - (sp - bp), u)
           | _, _ => exitScan rows sellId buyId credit stop ts) by
        simp [exitScan, hq]] at h
      cases hsp : firstPrice rows u sellId with
      | none =>
        simp only [hsp] at h
        rcases ih h with ⟨hm, h14, h30, rest⟩
        exact ⟨List.mem_cons_of_mem _ hm, h14, h30, rest⟩
      | some sp =>
        cases hbp : firstPrice rows u buyId with
        | none =>
          simp only [hsp, hbp] at h
          rcases ih h with ⟨hm, h14, h30, rest⟩
          exact ⟨List.mem_cons_of_mem _ hm, h14, h30, rest⟩
        | some bp =>
          simp only [hsp, hbp] at h
          have hq' := hq
          rw [Bool.and_eq_true, decide_eq_true_iff, decide_eq_true_iff] at hq'
          by_cases hstop : sp - bp ≥ stop
          · rw [if_pos hstop] at h
            cases h
            exact ⟨List.mem_cons_self _ _, hq'.1, hq'.2, sp, bp, hsp, hbp,
              Or.inl ⟨hstop, rfl⟩⟩
          · rw [if_neg hstop] at h
            cases h
            exact ⟨List.mem_cons_self _ _, hq'.1, hq'.2, sp, bp, hsp, hbp,
              Or.inr ⟨hstop, rfl⟩⟩
    · rw [show exitScan rows sellId buyId credit stop (u :: ts) =
          exitScan rows sellId buyId credit stop ts by
        simp [exitScan, hq]] at h
      rcases ih h with ⟨hm, h14, h30, rest⟩
      exact ⟨List.mem_cons_of_mem _ hm, h14, h30, rest⟩

theorem closeExit_eq_some {rows : List QuoteRow} {sellId buyId : Nat}
    {credit pnl : ℚ} {t : Nat}
    (h : closeExit rows sellId buyId credit = some (pnl, t)) :
    (rows.map (·.ts)).max? = some t ∧
      ∃ sp bp, firstPrice rows t sellId = some sp ∧
        firstPrice rows t buyId = some bp ∧ pnl = credit - (sp - bp) := by
  unfold closeExit at h
  split at h
  · exact absurd h (by simp)
  next tc hmax =>
    split at h
    next sp bp hsp hbp =>
      cases h
      exact ⟨hmax, sp, bp, hsp, hbp, rfl⟩
    next => exact absurd h (by simp)

/-! ## Inversion of the evaluation stages -/

theorem entryStage_eq_some {inp : DayInput} {tsEntry : Nat} {S : ℚ}
    (h : entryStage inp = some (tsEntry, S)) :
    trendSkip inp.ma5ChangePrev = false ∧
    (inp.dayOptionsAll.map (·.ts)).min? = some tsEntry ∧
    (∃ row, closestRow tsEntry inp.dayEquity = some row ∧ S = row.2) ∧
    0 < S := by
  unfold entryStage at h
  split at h
  · exact Option.noConfusion h
  next htrend =>
  split at h
  · exact Option.noConfusion h
  split at h
  · exact Option.noConfusion h
  split at h
  · exact Option.noConfusion h
  next t hmin =>
  split at h
  · exact Option.noConfusion h
  next eqRow hrow =>
  split at h
  · exact Option.noConfusion h
  next hS =>
  cases h
  exact ⟨by simpa using htrend, hmin, ⟨eqRow, hrow, rfl⟩, lt_of_not_le hS⟩

theorem ivStage_eq_some {ivf : ℚ → ℚ → ℚ → ℚ → Option ℚ} {inp : DayInput}
    {tsEntry : Nat} {S atmP IV : ℚ} {atmC : OptionContract}
    (h : ivStage ivf inp tsEntry S = some (atmC, atmP, IV)) :
    atmSelect (activeCallsOf inp) (entryOptsOf inp tsEntry) tsEntry S =
      some (atmC, atmP) ∧
    0 < yearsToExpiry atmC.expiration (entryAbs inp tsEntry) ∧
    ivf S atmC.strike (yearsToExpiry atmC.expiration (entryAbs inp tsEntry))
      atmP = some IV ∧
    0 < IV ∧ IV ≤ 3/4 := by
  unfold ivStage at h
  split at h
  · exact Option.noConfusion h
  split at h
  · exact Option.noConfusion h
  split at h
  · exact Option.noConfusion h
  next c p hatm =>
  split at h
  · exact Option.noConfusion h
  next hT =>
  split at h
  · exact Option.noConfusion h
  next iv hiv =>
  split at h
  · exact Option.noConfusion h
  next hIVpos =>
  split at h
  · exact Option.noConfusion h
  next hIVle =>
  cases h
  exact ⟨hatm, lt_of_not_le hT, hiv, lt_of_not_le hIVpos,
    le_of_not_lt hIVle⟩

theorem legsStage_eq_some {df : ℚ → ℚ → ℚ → ℚ → ℚ} {inp : DayInput}
    {tsEntry : Nat} {S IV sellD sellP buyP : ℚ} {sellC buyC : OptionContract}
    (h : legsStage df inp tsEntry S IV =
      some (sellC, sellD, sellP, buyC, buyP)) :
    ∃ buyD,
      firstValidLeg (entryOptsOf inp tsEntry) tsEntry
        (sellCandidates (contractDelta df S IV (entryAbs inp tsEntry))
          (activeCallsOf inp)) = some (sellC, sellD, sellP) ∧
      firstValidLeg (entryOptsOf inp tsEntry) tsEntry
        (buyCandidates (activeCallsOf inp) sellC.strike) =
          some (buyC, buyD, buyP) ∧
      1/4 < sellP - buyP := by
  unfold legsStage at h
  split at h
  · exact Option.noConfusion h
  next sc sd sp hsell =>
  split at h
  · exact Option.noConfusion h
  next bc bd bp hbuy =>
  split at h
  · exact Option.noConfusion h
  next hcredit =>
  cases h
  exact ⟨bd, hsell, hbuy, lt_of_not_le hcredit⟩

theorem exitStage_eq_some {inp : DayInput} {tsEntry sellId buyId : Nat}
    {credit pnl : ℚ} {tEx : Nat}
    (h : exitStage inp tsEntry sellId buyId credit = some (pnl, tEx)) :
    exitScan inp.dayOptionsAll sellId buyId credit (credit + 3/100)
      (dayTs inp.dayOptionsAll tsEntry) = some (pnl, tEx) ∨
    (exitScan inp.dayOptionsAll sellId buyId credit (credit + 3/100)
      (dayTs inp.dayOptionsAll tsEntry) = none ∧
      closeExit inp.dayOptionsAll sellId buyId credit = some (pnl, tEx)) := by
  unfold exitStage at h
  split at h
  next out hscan =>
    cases h
    exact Or.inl hscan
  next hscan =>
    exact Or.inr ⟨hscan, h⟩

/-- Inversion of a successful day evaluation into its four stages. -/
theorem evalDayExt_eq_some {df : ℚ → ℚ → ℚ → ℚ → ℚ}
    {ivf : ℚ → ℚ → ℚ → ℚ → Option ℚ} {inp : DayInput} {e : ExtTrade}
    (h : evalDayExt df ivf inp = some e) :
    ∃ tsEntry S atmC atmP IV sellC sellD sellP buyC buyP pnl tEx,
      entryStage inp = some (tsEntry, S) ∧
      ivStage ivf inp tsEntry S = some (atmC, atmP, IV) ∧
      legsStage df inp tsEntry S IV =
        some (sellC, sellD, sellP, buyC, buyP) ∧
      exitStage inp tsEntry sellC.oid buyC.oid (sellP - buyP) =
        some (pnl, tEx) ∧
      e = mkTrade inp tsEntry sellC buyC sellP buyP atmP pnl tEx := by
  unfold evalDayExt at h
  split at h
  · exact Option.noConfusion h
  next tsEntry S hentry =>
  split at h
  · exact Option.noConfusion h
  next atmC atmP IV hivs =>
  split at h
  · exact Option.noConfusion h
  next sellC sellD sellP buyC buyP hlegs =>
  split at h
  · exact Option.noConfusion h
  next pnl tEx hexit =>
  cases h
  exact ⟨tsEntry, S, atmC, atmP, IV, sellC, sellD, sellP, buyC, buyP, pnl,
    tEx, hentry, hivs, hlegs, hexit, rfl⟩

theorem evalDay_eq_some {df : ℚ → ℚ → ℚ → ℚ → ℚ}
    {ivf : ℚ → ℚ → ℚ → ℚ → Option ℚ} {inp : DayInput} {t : Trade}
    (h : evalDay df ivf inp = some t) :
    ∃ e, evalDayExt df ivf inp = some e ∧ t = e.trade := by
  unfold evalDay at h
  cases he : evalDayExt df ivf inp with
  | none => rw [he] at h; exact Option.noConfusion h
  | some e =>
    rw [he] at h
    cases h
    exact ⟨e, rfl, rfl⟩

theorem evalDay_date {df : ℚ → ℚ → ℚ → ℚ → ℚ}
    {ivf : ℚ → ℚ → ℚ → ℚ → Option ℚ} {inp : DayInput} {t : Trade}
    (h : evalDay df ivf inp = some t) : t.date = inp.day := by
  rcases evalDay_eq_some h with ⟨e, he, rfl⟩
  rcases evalDayExt_eq_some he with
    ⟨_, _, _, _, _, _, _, _, _, _, _, _, _, _, _, _, rfl⟩
  rfl

theorem mem_runAux_date {df : ℚ → ℚ → ℚ → ℚ → ℚ}
    {ivf : ℚ → ℚ → ℚ → ℚ → Option ℚ} {optInfo : List OptionContract}
    {closes : List ℚ} {t : Trade} :
    ∀ {i : Nat} {days : List RunDay},
      t ∈ runAux df ivf optInfo closes i days → ∃ d ∈ days, t.date = d.date := by
  intro i days
  induction days generalizing i with
  | nil => intro h; simp [runAux] at h
  | cons d rest ih =>
    intro h
    rw [show runAux df ivf optInfo closes i (d :: rest) =
        match
          (if i = 0 then none
           else evalDay df ivf (dayInputAt optInfo closes i d)) with
        | some t => t :: runAux df ivf optInfo closes (i + 1) rest
        | none => runAux df ivf optInfo closes (i + 1) rest from rfl] at h
    split at h
    next t' heq =>
      rcases List.mem_cons.mp h with rfl | hmem
      · split at heq
        · exact Option.noConfusion heq
        · exact ⟨d, List.mem_cons_self _ _, evalDay_date heq⟩
      · rcases ih hmem with ⟨d', hd', hdate⟩
        exact ⟨d', List.mem_cons_of_mem _ hd', hdate⟩
    next heq =>
      rcases ih h with ⟨d', hd', hdate⟩
      exact ⟨d', List.mem_cons_of_mem _ hd', hdate⟩

theorem runAux_dates_pairwise {df : ℚ → ℚ → ℚ → ℚ → ℚ}
    {ivf : ℚ → ℚ → ℚ → ℚ → Option ℚ} {optInfo : List OptionContract}
    {closes : List ℚ} :
    ∀ {i : Nat} {days : List RunDay},
      (days.map (·.date)).Pairwise (· < ·) →
      ((runAux df ivf optInfo closes i days).map (·.date)).Pairwise (· < ·) := by
  intro i days
  induction days generalizing i with
  | nil => intro _; simp [runAux]
  | cons d rest ih =>
    intro hp
    rw [List.map_cons, List.pairwise_cons] at hp
    obtain ⟨hhead, htail⟩ := hp
    rw [show runAux df ivf optInfo closes i (d :: rest) =
        match
          (if i = 0 then none
           else evalDay df ivf (dayInputAt optInfo closes i d)) with
        | some t => t :: runAux df ivf optInfo closes (i + 1) rest
        | none => runAux df ivf optInfo closes (i + 1) rest from rfl]
    split
    next t' heq =>
      rw [List.map_cons, List.pairwise_cons]
      refine ⟨?_, ih htail⟩
      intro y hy
      rcases List.mem_map.mp hy with ⟨t2, ht2, rfl⟩
      rcases mem_runAux_date ht2 with ⟨d', hd', hdate⟩
      have ht'date : t'.date = d.date := by
        split at heq
        · exact Option.noConfusion heq
        · exact evalDay_date heq
      rw [ht'date, hdate]
      exact hhead d'.date (List.mem_map.mpr ⟨d', hd', rfl⟩)
    next heq => exact ih htail

/-! ## Claim theorems -/

/-- C1: the claim says the exit (stop-loss or scheduled) happens at the
chronologically first quote timestamp strictly after entry, on the entry
day, that is at or after 14:30 with both legs quoted.  The code violates
this: `src/main.py` line 220 tests `ts.hour >= 14 and ts.minute >= 30`,
which is false at 15:00, although the comment on that line ("Exit at or
after 2:30 PM") and the spec both call for "at or after 14:30".  On
`dayC1` the post-entry timestamps are 900 (= 15:00) then 935 (= 15:35),
both with both legs quoted; 900 ≥ 870 (= 14:30) qualifies under the
claim, yet the evaluator scans past it and exits at 935. -/
theorem c1_exit_skips_1500 :
    evalDay deltaFnEx ivFnEx dayC1 = some tradeC1 ∧ tradeC1.exitTime = 935 ∧
    dayTs dayC1.dayOptionsAll 570 = [900, 935] ∧
    firstPrice dayC1.dayOptionsAll 900 0 = some (1/2) ∧
    firstPrice dayC1.dayOptionsAll 900 1 = some (3/20) ∧
    870 ≤ 900 := by
  refine ⟨?_, ?_, ?_, ?_, ?_, by norm_num⟩ <;> with_unfolding_all rfl

/-- C2: for every recorded trade the total P&L is `200 · exitPnl - 2.5`,
at the exit timestamp both legs have present quotes, and the exit P&L
follows the claim's case split: either the exit came from the scan over
the qualifying timestamps — and then if the spread reached the stop-loss
(`credit + 0.03`) the exit P&L is `credit - stop-loss`, otherwise
(spread strictly below the stop-loss) it is `credit - spread` — or no
qualifying timestamp existed (the scan found none) and the exit is taken
at the day's last available quote timestamp with exit P&L
`credit - spread`.  On the concrete example day (credit 0.30, spread
0.35 at 14:35) the exit P&L is −0.03 and the total P&L is −8.5. -/
theorem c2_exit_pnl_formula :
    (∀ (df : ℚ → ℚ → ℚ → ℚ → ℚ) (ivf : ℚ → ℚ → ℚ → ℚ → Option ℚ)
        (inp : DayInput) (e : ExtTrade),
      evalDayExt df ivf inp = some e →
      e.trade.totalPnl = 200 * e.trade.exitPnl - 5/2 ∧
      ∃ sp bp,
        firstPrice inp.dayOptionsAll e.trade.exitTime e.sellId = some sp ∧
        firstPrice inp.dayOptionsAll e.trade.exitTime e.buyId = some bp ∧
        ((exitScan inp.dayOptionsAll e.sellId e.buyId e.trade.credit
              (e.trade.credit + 3/100)
              (dayTs inp.dayOptionsAll e.trade.entryTime) =
            some (e.trade.exitPnl, e.trade.exitTime) ∧
          ((e.trade.credit + 3/100 ≤ sp - bp ∧
              e.trade.exitPnl =
                e.trade.credit - (e.trade.credit + 3/100)) ∨
            (¬ e.trade.credit + 3/100 ≤ sp - bp ∧
              e.trade.exitPnl = e.trade.credit - (sp - bp)))) ∨
         (exitScan inp.dayOptionsAll e.sellId e.buyId e.trade.credit
              (e.trade.credit + 3/100)
              (dayTs inp.dayOptionsAll e.trade.entryTime) = none ∧
          (inp.dayOptionsAll.map (·.ts)).max? = some e.trade.exitTime ∧
          e.trade.exitPnl = e.trade.credit - (sp - bp)))) ∧
    (evalDayExt deltaFnEx ivFnEx goodDay = some goodExt ∧
      goodTrade.credit = 3/10 ∧ goodTrade.exitPnl = -3/100 ∧
      goodTrade.totalPnl = -17/2) := by
  constructor
  · intro df ivf inp e h
    rcases evalDayExt_eq_some h with
      ⟨tsE, S, atmC, atmP, IV, sellC, sellD, sellP, buyC, buyP, pnl, tEx,
        hentry, hiv, hlegs, hexit, rfl⟩
    refine ⟨rfl, ?_⟩
    rcases exitStage_eq_some hexit with hscan | ⟨hscan, hclose⟩
    · rcases exitScan_eq_some hscan with ⟨_, _, _, sp, bp, hsp, hbp, hcases⟩
      refine ⟨sp, bp, hsp, hbp, Or.inl ⟨hscan, ?_⟩⟩
      rcases hcases with ⟨hge, rfl⟩ | ⟨hlt, rfl⟩
      · exact Or.inl ⟨hge, rfl⟩
      · exact Or.inr ⟨hlt, rfl⟩
    · rcases closeExit_eq_some hclose with ⟨hmax, sp, bp, hsp, hbp, rfl⟩
      exact ⟨sp, bp, hsp, hbp, Or.inr ⟨hscan, hmax, rfl⟩⟩
  · exact ⟨by with_unfolding_all rfl, rfl, rfl, rfl⟩

/-- Witness for C2: the stop-loss example trade of `goodDay` satisfies
the general exit-P&L property. -/
theorem c2_exit_pnl_formula_witness :
    goodExt.trade.totalPnl = 200 * goodExt.trade.exitPnl - 5/2 ∧
    ∃ sp bp,
      firstPrice goodDay.dayOptionsAll goodExt.trade.exitTime
        goodExt.sellId = some sp ∧
      firstPrice goodDay.dayOptionsAll goodExt.trade.exitTime
        goodExt.buyId = some bp ∧
      ((exitScan goodDay.dayOptionsAll goodExt.sellId goodExt.buyId
            goodExt.trade.credit (goodExt.trade.credit + 3/100)
            (dayTs goodDay.dayOptionsAll goodExt.trade.entryTime) =
          some (goodExt.trade.exitPnl, goodExt.trade.exitTime) ∧
        ((goodExt.trade.credit + 3/100 ≤ sp - bp ∧
            goodExt.trade.exitPnl =
              goodExt.trade.credit - (goodExt.trade.credit + 3/100)) ∨
          (¬ goodExt.trade.credit + 3/100 ≤ sp - bp ∧
            goodExt.trade.exitPnl = goodExt.trade.credit - (sp - bp)))) ∨
       (exitScan goodDay.dayOptionsAll goodExt.sellId goodExt.buyId
            goodExt.trade.credit (goodExt.trade.credit + 3/100)
            (dayTs goodDay.dayOptionsAll goodExt.trade.entryTime) = none ∧
        (goodDay.dayOptionsAll.map (·.ts)).max? =
          some goodExt.trade.exitTime ∧
        goodExt.trade.exitPnl = goodExt.trade.credit - (sp - bp))) :=
  c2_exit_pnl_formula.1 deltaFnEx ivFnEx goodDay goodExt
    (by with_unfolding_all rfl)

/-- C3: every recorded trade has sell strike < buy strike with a gap of
at least 5, and a run records at most one trade per trading day (for a
run whose day dates are strictly increasing, the dates of the recorded
trades are strictly increasing, so no date repeats). -/
theorem c3_strike_and_uniqueness_invariants :
    (∀ (df : ℚ → ℚ → ℚ → ℚ → ℚ) (ivf : ℚ → ℚ → ℚ → ℚ → Option ℚ)
        (inp : DayInput) (e : ExtTrade),
      evalDayExt df ivf inp = some e →
      e.trade.sellStrike < e.trade.buyStrike ∧
      5 ≤ e.trade.buyStrike - e.trade.sellStrike) ∧
    (∀ (df : ℚ → ℚ → ℚ → ℚ → ℚ) (ivf : ℚ → ℚ → ℚ → ℚ → Option ℚ)
        (optInfo : List OptionContract) (days : List RunDay),
      (days.map (·.date)).Pairwise (· < ·) →
      ((runBacktest df ivf optInfo days).map (·.date)).Pairwise (· < ·)) := by
  constructor
  · intro df ivf inp e h
    rcases evalDayExt_eq_some h with
      ⟨tsE, S, atmC, atmP, IV, sellC, sellD, sellP, buyC, buyP, pnl, tEx,
        hentry, hiv, hlegs, hexit, rfl⟩
    rcases legsStage_eq_some hlegs with ⟨buyD, hsell, hbuy, hcredit⟩
    rcases firstValidLeg_eq_some hbuy with ⟨hmem, hbp, hbppos⟩
    rcases mem_buyCandidates.mp hmem with ⟨hmemA, hstrike, rfl⟩
    constructor
    · show sellC.strike < buyC.strike
      linarith
    · show (5:ℚ) ≤ buyC.strike - sellC.strike
      linarith
  · intro df ivf optInfo days hp
    exact runAux_dates_pairwise hp

/-- Witness for C3: the `goodDay` trade (strikes 100/105) and the
two-day run `runC6`. -/
theorem c3_strike_and_uniqueness_invariants_witness :
    ((⟨goodTrade, 0, 1, 11/20, 1/4, 11/20⟩ : ExtTrade).trade.sellStrike <
        (⟨goodTrade, 0, 1, 11/20, 1/4, 11/20⟩ : ExtTrade).trade.buyStrike ∧
      5 ≤ (⟨goodTrade, 0, 1, 11/20, 1/4, 11/20⟩ : ExtTrade).trade.buyStrike -
        (⟨goodTrade, 0, 1, 11/20, 1/4, 11/20⟩ : ExtTrade).trade.sellStrike) ∧
    ((runBacktest deltaFnEx ivFnEx [con0, con1] runC6).map
      (·.date)).Pairwise (· < ·) :=
  ⟨c3_strike_and_uniqueness_invariants.1 deltaFnEx ivFnEx goodDay
      ⟨goodTrade, 0, 1, 11/20, 1/4, 11/20⟩ (by with_unfolding_all rfl),
    c3_strike_and_uniqueness_invariants.2 deltaFnEx ivFnEx [con0, con1]
      runC6 (by with_unfolding_all decide)⟩

/-- C4 counterexample: the claim says a day is SKIPped at ATM selection
only when no contract at any strike has a valid positive entry price.
On `dayC4` two active calls share strike 100; the second (id 1) is
quoted at 5 > 0 at the entry timestamp, yet the evaluator SKIPs the day:
the candidate loop of `src/main.py` lines 119–127 resolves each
candidate strike via `active_calls[active_calls['strike'] ==
candidate_strike].iloc[0]`, so only the first contract at a strike is
ever consulted. -/
theorem c4_counterexample :
    evalDayExt deltaFnEx ivFnEx dayC4 = none ∧
    atmSelect (activeCallsOf dayC4) (entryOptsOf dayC4 570) 570 100 = none ∧
    (⟨1, 22, true, 100⟩ : OptionContract) ∈ activeCallsOf dayC4 ∧
    firstPrice (entryOptsOf dayC4 570) 570 1 = some 5 ∧
    validPrice (firstPrice (entryOptsOf dayC4 570) 570 1) = true := by
  refine ⟨?_, ?_, ?_, ?_, ?_⟩ <;> with_unfolding_all first | rfl | decide

/-- C4 amended: the ATM loop tries candidate strikes in ascending order
of absolute distance to the spot, but at each strike it consults only
the first-listed contract with that strike; the day is SKIPped at step 3
iff for every strike among the active calls that first-listed contract
has no valid positive entry price.  When it succeeds, the selected
contract is the first-listed one at its strike, its price is positive,
and its strike distance is minimal among the available strikes. -/
theorem c4_amended_atm_selection :
    (∀ (A : List OptionContract) (dOpts : List QuoteRow) (tE : Nat) (S : ℚ),
      atmSelect A dOpts tE S = none ↔
        ∀ k ∈ A.map (·.strike), availStrike A dOpts tE k = false) ∧
    (∀ (A : List OptionContract) (dOpts : List QuoteRow) (tE : Nat) (S : ℚ)
        (c : OptionContract) (p : ℚ),
      atmSelect A dOpts tE S = some (c, p) →
      firstWithStrike A c.strike = some c ∧
      firstPrice dOpts tE c.oid = some p ∧ 0 < p ∧
      ∀ k ∈ A.map (·.strike), availStrike A dOpts tE k = true →
        |c.strike - S| ≤ |k - S|) := by
  constructor
  · intro A dOpts tE S
    unfold atmSelect
    rw [atmScan_eq_none]
    constructor
    · intro h k hk
      exact h k (mem_sortByKey.mpr hk)
    · intro h k hk
      exact h k (mem_sortByKey.mp hk)
  · intro A dOpts tE S c p h
    unfold atmSelect at h
    rcases atmScan_eq_some
        (pairwise_sortByKey (fun k => |k - S|) (A.map (·.strike))) h with
      ⟨k, hk, hfw, hfp, hp, hmin⟩
    have hck : c.strike = k := firstWithStrike_strike hfw
    subst hck
    exact ⟨hfw, hfp, hp, fun k' hk' hav =>
      hmin k' (mem_sortByKey.mpr hk') hav⟩

/-- Witness for C4 amended: on `dayC4` the skip characterization holds
(both contracts share strike 100 whose first-listed contract has no
quote), and on `goodDay` the successful selection picks the strike-100
contract at price 0.55. -/
theorem c4_amended_atm_selection_witness :
    (atmSelect (activeCallsOf dayC4) (entryOptsOf dayC4 570) 570 100 = none ↔
      ∀ k ∈ (activeCallsOf dayC4).map (·.strike),
        availStrike (activeCallsOf dayC4) (entryOptsOf dayC4 570) 570 k =
          false) ∧
    (firstWithStrike (activeCallsOf goodDay) con0.strike = some con0 ∧
      firstPrice (entryOptsOf goodDay 570) 570 con0.oid = some (11/20) ∧
      (0:ℚ) < 11/20 ∧
      ∀ k ∈ (activeCallsOf goodDay).map (·.strike),
        availStrike (activeCallsOf goodDay) (entryOptsOf goodDay 570) 570 k =
          true → |con0.strike - 100| ≤ |k - 100|) :=
  ⟨c4_amended_atm_selection.1 (activeCallsOf dayC4) (entryOptsOf dayC4 570)
      570 100,
    c4_amended_atm_selection.2 (activeCallsOf goodDay)
      (entryOptsOf goodDay 570) 570 100 con0 (11/20)
      (by with_unfolding_all rfl)⟩

/-- C5: the sell leg is the first valid-priced candidate among contracts
with computed delta < 0.35 ordered by delta descending, so its delta is
maximal among valid-priced candidates under the threshold; and in the
concrete two-candidate example (deltas 0.30 and 0.20, both with valid
prices) the 0.30-delta contract is chosen. -/
theorem c5_sell_leg_selection :
    (∀ (df : ℚ → ℚ → ℚ → ℚ → ℚ) (ivf : ℚ → ℚ → ℚ → ℚ → Option ℚ)
        (inp : DayInput) (e : ExtTrade),
      evalDayExt df ivf inp = some e →
      ∃ tsEntry S IV sellC sellD sellP,
        entryStage inp = some (tsEntry, S) ∧
        e.sellId = sellC.oid ∧ e.trade.sellStrike = sellC.strike ∧
        e.sellPrice = sellP ∧
        contractDelta df S IV (entryAbs inp tsEntry) sellC = some sellD ∧
        sellD < 7/20 ∧
        firstPrice (entryOptsOf inp tsEntry) tsEntry sellC.oid = some sellP ∧
        0 < sellP ∧
        ∀ c δ,
          (c, δ) ∈ sellCandidates
            (contractDelta df S IV (entryAbs inp tsEntry))
            (activeCallsOf inp) →
          validPrice (firstPrice (entryOptsOf inp tsEntry) tsEntry c.oid) =
            true →
          δ ≤ sellD) ∧
    ((evalDayExt deltaFnEx ivFnEx goodDay).map (·.sellId) = some con0.oid ∧
      contractDelta deltaFnEx 100 (1/2) (entryAbs goodDay 570) con0 =
        some (3/10) ∧
      contractDelta deltaFnEx 100 (1/2) (entryAbs goodDay 570) con1 =
        some (1/5) ∧
      validPrice (firstPrice (entryOptsOf goodDay 570) 570 con0.oid) = true ∧
      validPrice (firstPrice (entryOptsOf goodDay 570) 570 con1.oid) = true) := by
  constructor
  · intro df ivf inp e h
    rcases evalDayExt_eq_some h with
      ⟨tsE, S, atmC, atmP, IV, sellC, sellD, sellP, buyC, buyP, pnl, tEx,
        hentry, hiv, hlegs, hexit, rfl⟩
    rcases legsStage_eq_some hlegs with ⟨buyD, hsell, hbuy, hcredit⟩
    rcases firstValidLeg_eq_some hsell with ⟨hmem, hsp, hsppos⟩
    rcases mem_sellCandidates.mp hmem with ⟨hmemA, hdelta, hlt⟩
    refine ⟨tsE, S, IV, sellC, sellD, sellP, hentry, rfl, rfl, rfl, hdelta,
      hlt, hsp, hsppos, ?_⟩
    intro c δ hmemc hval
    have hp : (sellCandidates
        (contractDelta df S IV (entryAbs inp tsE))
        (activeCallsOf inp)).Pairwise
        (fun x y => (fun cd : OptionContract × ℚ => -cd.2) x ≤
          (fun cd : OptionContract × ℚ => -cd.2) y) :=
      pairwise_sortByKey _ _
    have := firstValidLeg_min hp hsell (c, δ) hmemc hval
    simpa using this
  · refine ⟨?_, ?_, ?_, ?_, ?_⟩ <;> with_unfolding_all rfl

/-- Witness for C5: the general sell-selection property instantiated on
`goodDay`. -/
theorem c5_sell_leg_selection_witness :
    ∃ tsEntry S IV sellC sellD sellP,
      entryStage goodDay = some (tsEntry, S) ∧
      (⟨goodTrade, 0, 1, 11/20, 1/4, 11/20⟩ : ExtTrade).sellId = sellC.oid ∧
      (⟨goodTrade, 0, 1, 11/20, 1/4, 11/20⟩ : ExtTrade).trade.sellStrike =
        sellC.strike ∧
      (⟨goodTrade, 0, 1, 11/20, 1/4, 11/20⟩ : ExtTrade).sellPrice = sellP ∧
      contractDelta deltaFnEx S IV (entryAbs goodDay tsEntry) sellC =
        some sellD ∧
      sellD < 7/20 ∧
      firstPrice (entryOptsOf goodDay tsEntry) tsEntry sellC.oid =
        some sellP ∧
      0 < sellP ∧
      ∀ c δ,
        (c, δ) ∈ sellCandidates
          (contractDelta deltaFnEx S IV (entryAbs goodDay tsEntry))
          (activeCallsOf goodDay) →
        validPrice (firstPrice (entryOptsOf goodDay tsEntry) tsEntry c.oid) =
          true →
        δ ≤ sellD :=
  c5_sell_leg_selection.1 deltaFnEx ivFnEx goodDay
    ⟨goodTrade, 0, 1, 11/20, 1/4, 11/20⟩ (by with_unfolding_all rfl)

/-- C6 counterexample: the claim says a day without preceding 5-day
moving-average data is not traded.  In the two-day run `runC6` the
second day's predecessor has `ma5_change = NaN` (there are only two
daily closes, and the 5-day window is not filled), yet the run records a
trade for that day: `ma5_change_prev > 1` is `False` for `NaN` in
Python, so the trend filter does not skip. -/
theorem c6_counterexample :
    runBacktest deltaFnEx ivFnEx [con0, con1] runC6 = [goodTrade] ∧
    ma5ChangeAt (dailyCloses runC6) 0 = none ∧
    (runC6.map (·.date)).get? 1 = some goodTrade.date := by
  refine ⟨?_, ?_, ?_⟩ <;> with_unfolding_all rfl

/-- C6 amended: only the first trading day is structurally skipped for
lack of a predecessor; a day whose predecessor's `ma5_change` is
missing (`NaN`, which holds for the first five daily closes) passes the
trend filter and may be traded; a day immediately following a
predecessor with `ma5_change > 1` is always SKIPped. -/
theorem c6_trend_filter :
    (∀ (df : ℚ → ℚ → ℚ → ℚ → ℚ) (ivf : ℚ → ℚ → ℚ → ℚ → Option ℚ)
        (inp : DayInput) (x : ℚ),
      inp.ma5ChangePrev = some x → 1 < x → evalDayExt df ivf inp = none) ∧
    (∀ (xs : List ℚ) (i : Nat), i ≤ 4 → ma5ChangeAt xs i = none) ∧
    (∃ inp : DayInput, inp.ma5ChangePrev = none ∧
      evalDayExt deltaFnEx ivFnEx inp ≠ none) := by
  refine ⟨?_, ?_, ?_⟩
  · intro df ivf inp x hma hx
    have he : entryStage inp = none := by
      unfold entryStage
      rw [hma]
      simp [trendSkip, hx]
    unfold evalDayExt
    rw [he]
  · intro xs i hi
    match i, hi with
    | 0, _ => rfl
    | (j+1), hi =>
      have hj : ¬(4 ≤ j ∧ j < xs.length) := fun hc => by omega
      simp [ma5ChangeAt, ma5At, hj]
  · refine ⟨{ goodDay with ma5ChangePrev := none }, rfl, ?_⟩
    rw [show evalDayExt deltaFnEx ivFnEx
        { goodDay with ma5ChangePrev := none } =
        some ⟨goodTrade, 0, 1, 11/20, 1/4, 11/20⟩ from
      by with_unfolding_all rfl]
    simp

/-- Witness for C6 amended: a day whose predecessor's `ma5_change` is
+2% is skipped, and `ma5_change` at index 4 is missing. -/
theorem c6_trend_filter_witness :
    evalDayExt deltaFnEx ivFnEx { goodDay with ma5ChangePrev := some 2 } =
      none ∧
    ma5ChangeAt [100, 100, 100, 100, 100] 4 = none :=
  ⟨c6_trend_filter.1 deltaFnEx ivFnEx
      { goodDay with ma5ChangePrev := some 2 } 2 rfl one_lt_two,
    c6_trend_filter.2.1 [100, 100, 100, 100, 100] 4 (le_refl 4)⟩

/-- C7: the claim says every place a contract price is consulted treats
non-positive or missing prices as unavailable.  This holds at entry-leg
selection (the selected ATM, sell and buy prices are all positive), but
at the exit scan and close only missing (`NaN`) quotes are skipped
(`src/main.py` lines 224 and 242 test only `np.isnan`): on `dayC7` the
sell leg is quoted at exactly 0 at the 14:35 exit check and that zero is
used in the spread, giving exit P&L `credit - (0 - 0.10) = 0.40`. -/
theorem c7_zero_price_used_at_exit :
    evalDayExt deltaFnEx ivFnEx dayC7 =
      some ⟨tradeC7, 0, 1, 11/20, 1/4, 11/20⟩ ∧
    firstPrice dayC7.dayOptionsAll 875 0 = some 0 ∧
    tradeC7.exitTime = 875 ∧
    tradeC7.exitPnl = tradeC7.credit - (0 - 1/10) := by
  refine ⟨?_, ?_, ?_, ?_⟩ <;> with_unfolding_all rfl

/-- C7 amended: at entry-leg selection (ATM anchor, sell leg, buy leg)
non-positive or missing prices are treated as unavailable, so every
selected entry price is positive and the credit is their difference; at
the exit scan and close, however, only missing quotes are treated as
unavailable, and a present non-positive quote is used in the spread and
P&L computation (witnessed by `dayC7`). -/
theorem c7_amended_price_validity :
    (∀ (df : ℚ → ℚ → ℚ → ℚ → ℚ) (ivf : ℚ → ℚ → ℚ → ℚ → Option ℚ)
        (inp : DayInput) (e : ExtTrade),
      evalDayExt df ivf inp = some e →
      0 < e.atmPrice ∧ 0 < e.sellPrice ∧ 0 < e.buyPrice ∧
      e.trade.credit = e.sellPrice - e.buyPrice) ∧
    (∃ (inp : DayInput) (e : ExtTrade),
      evalDayExt deltaFnEx ivFnEx inp = some e ∧
      firstPrice inp.dayOptionsAll e.trade.exitTime e.sellId = some 0 ∧
      e.trade.exitPnl = e.trade.credit + 1/10) := by
  constructor
  · intro df ivf inp e h
    rcases evalDayExt_eq_some h with
      ⟨tsE, S, atmC, atmP, IV, sellC, sellD, sellP, buyC, buyP, pnl, tEx,
        hentry, hiv, hlegs, hexit, rfl⟩
    rcases ivStage_eq_some hiv with ⟨hatm, hT, hivf, hIVpos, hIVle⟩
    unfold atmSelect at hatm
    rcases atmScan_eq_some
        (pairwise_sortByKey (fun k => |k - S|)
          ((activeCallsOf inp).map (·.strike))) hatm with
      ⟨k, hk, hfw, hfp, hppos, hmin⟩
    rcases legsStage_eq_some hlegs with ⟨buyD, hsell, hbuy, hcredit⟩
    rcases firstValidLeg_eq_some hsell with ⟨_, _, hsppos⟩
    rcases firstValidLeg_eq_some hbuy with ⟨_, _, hbppos⟩
    exact ⟨hppos, hsppos, hbppos, rfl⟩
  · refine ⟨dayC7, ⟨tradeC7, 0, 1, 11/20, 1/4, 11/20⟩, ?_, ?_, ?_⟩ <;>
      with_unfolding_all rfl

/-- Witness for C7 amended: the entry prices of the `goodDay` trade are
positive and its credit is their difference. -/
theorem c7_amended_price_validity_witness :
    0 < (⟨goodTrade, 0, 1, 11/20, 1/4, 11/20⟩ : ExtTrade).atmPrice ∧
    0 < (⟨goodTrade, 0, 1, 11/20, 1/4, 11/20⟩ : ExtTrade).sellPrice ∧
    0 < (⟨goodTrade, 0, 1, 11/20, 1/4, 11/20⟩ : ExtTrade).buyPrice ∧
    (⟨goodTrade, 0, 1, 11/20, 1/4, 11/20⟩ : ExtTrade).trade.credit =
      (⟨goodTrade, 0, 1, 11/20, 1/4, 11/20⟩ : ExtTrade).sellPrice -
        (⟨goodTrade, 0, 1, 11/20, 1/4, 11/20⟩ : ExtTrade).buyPrice :=
  c7_amended_price_validity.1 deltaFnEx ivFnEx goodDay
    ⟨goodTrade, 0, 1, 11/20, 1/4, 11/20⟩ (by with_unfolding_all rfl)

/-- C8: the Black–Scholes call delta `N(d1)` (the formula of
`src/main.py` lines 164–165, modelled over `ℝ`) is monotonically
non-decreasing in the spot `S`, non-increasing in the strike `K`, and
bounded in `[0, 1]`, for positive `S`, `K`, `T`, `σ`. -/
theorem c8_delta_monotone_bounded (S S1 S2 K K1 K2 r T σ : ℝ)
    (hS : 0 < S) (hS1 : 0 < S1) (hS12 : S1 ≤ S2) (hK : 0 < K)
    (hK1 : 0 < K1) (hK12 : K1 ≤ K2) (hT : 0 < T) (hσ : 0 < σ) :
    callDelta S1 K r T σ ≤ callDelta S2 K r T σ ∧
    callDelta S K2 r T σ ≤ callDelta S K1 r T σ ∧
    0 ≤ callDelta S K r T σ ∧ callDelta S K r T σ ≤ 1 :=
  ⟨stdNormalCDF_mono (d1BS_mono_spot hS1 hS12 hK hT hσ),
    stdNormalCDF_mono (d1BS_anti_strike hS hK1 hK12 hT hσ),
    stdNormalCDF_nonneg _, stdNormalCDF_le_one _⟩

/-- Witness for C8: delta monotonicity and bounds at
`S ∈ {1, 2}`, `K ∈ {1, 2}`, `r = 0`, `T = 1`, `σ = 1`. -/
theorem c8_delta_monotone_bounded_witness :
    callDelta 1 1 0 1 1 ≤ callDelta 2 1 0 1 1 ∧
    callDelta 1 2 0 1 1 ≤ callDelta 1 1 0 1 1 ∧
    0 ≤ callDelta 1 1 0 1 1 ∧ callDelta 1 1 0 1 1 ≤ 1 :=
  c8_delta_monotone_bounded 1 1 2 1 1 2 0 1 1 one_pos one_pos one_le_two
    one_pos one_pos one_le_two one_pos one_pos

/-- C9 counterexample: the claim says every recorded trade carries the
day's ATM strike, implied volatility and sell-leg delta.  The
`logger.log_trade` call at `src/main.py` lines 254–263 omits the
`atm_strike`, `iv` and `sell_delta` keyword arguments, so they default
to `None` (`src/logger.py` lines 73–74): the `goodDay` trade is recorded
with all three fields empty. -/
theorem c9_counterexample :
    evalDay deltaFnEx ivFnEx goodDay = some goodTrade ∧
    goodTrade.atmStrike = none ∧ goodTrade.iv = none ∧
    goodTrade.sellDelta = none := by
  refine ⟨?_, rfl, rfl, rfl⟩
  with_unfolding_all rfl

/-- C9 amended: every recorded trade carries the trading day, entry and
exit timestamps, strikes, credit and the P&L figures of the day's
evaluation, but its ATM-strike, implied-volatility and sell-delta fields
are always `None`, because the `log_trade` call omits those keyword
arguments. -/
theorem c9_amended_trade_fields :
    ∀ (df : ℚ → ℚ → ℚ → ℚ → ℚ) (ivf : ℚ → ℚ → ℚ → ℚ → Option ℚ)
      (inp : DayInput) (t : Trade),
      evalDay df ivf inp = some t →
      t.atmStrike = none ∧ t.iv = none ∧ t.sellDelta = none ∧
      t.date = inp.day ∧ t.totalPnl = 200 * t.exitPnl - 5/2 ∧
      ∃ e, evalDayExt df ivf inp = some e ∧ t = e.trade ∧
        t.credit = e.sellPrice - e.buyPrice := by
  intro df ivf inp t h
  rcases evalDay_eq_some h with ⟨e, he, rfl⟩
  rcases evalDayExt_eq_some he with
    ⟨tsE, S, atmC, atmP, IV, sellC, sellD, sellP, buyC, buyP, pnl, tEx,
      hentry, hiv, hlegs, hexit, rfl⟩
  exact ⟨rfl, rfl, rfl, rfl, rfl, _, he, rfl, rfl⟩

/-- Witness for C9 amended: the `goodDay` trade. -/
theorem c9_amended_trade_fields_witness :
    goodTrade.atmStrike = none ∧ goodTrade.iv = none ∧
    goodTrade.sellDelta = none ∧ goodTrade.date = goodDay.day ∧
    goodTrade.totalPnl = 200 * goodTrade.exitPnl - 5/2 ∧
    ∃ e, evalDayExt deltaFnEx ivFnEx goodDay = some e ∧
      goodTrade = e.trade ∧
      goodTrade.credit = e.sellPrice - e.buyPrice :=
  c9_amended_trade_fields deltaFnEx ivFnEx goodDay goodTrade
    (by with_unfolding_all rfl)

/-- C10: buy-leg selection constrains the buy contract only to be an
active call with strike ≥ sell strike + 5 and a valid positive entry
price — never to share the sell leg's expiration.  Consequently the two
legs can expire on different dates: on `goodDay` the recorded trade
sells contract 0 (expiring day 21) and buys contract 1 (expiring
day 22). -/
theorem c10_legs_need_not_share_expiration :
    (∀ (df : ℚ → ℚ → ℚ → ℚ → ℚ) (ivf : ℚ → ℚ → ℚ → ℚ → Option ℚ)
        (inp : DayInput) (e : ExtTrade),
      evalDayExt df ivf inp = some e →
      ∃ tsEntry sellC buyC bp,
        sellC ∈ activeCallsOf inp ∧ buyC ∈ activeCallsOf inp ∧
        e.sellId = sellC.oid ∧ e.buyId = buyC.oid ∧
        sellC.strike + 5 ≤ buyC.strike ∧
        firstPrice (entryOptsOf inp tsEntry) tsEntry buyC.oid = some bp ∧
        0 < bp) ∧
    (evalDayExt deltaFnEx ivFnEx goodDay =
        some ⟨goodTrade, 0, 1, 11/20, 1/4, 11/20⟩ ∧
      con0.oid = 0 ∧ con1.oid = 1 ∧
      con0 ∈ activeCallsOf goodDay ∧ con1 ∈ activeCallsOf goodDay ∧
      con0.expiration = 21 ∧ con1.expiration = 22 ∧
      con0.expiration ≠ con1.expiration) := by
  constructor
  · intro df ivf inp e h
    rcases evalDayExt_eq_some h with
      ⟨tsE, S, atmC, atmP, IV, sellC, sellD, sellP, buyC, buyP, pnl, tEx,
        hentry, hiv, hlegs, hexit, rfl⟩
    rcases legsStage_eq_some hlegs with ⟨buyD, hsell, hbuy, hcredit⟩
    rcases firstValidLeg_eq_some hsell with ⟨hmemS, hsp, hsppos⟩
    rcases mem_sellCandidates.mp hmemS with ⟨hmemSA, _, _⟩
    rcases firstValidLeg_eq_some hbuy with ⟨hmemB, hbp, hbppos⟩
    rcases mem_buyCandidates.mp hmemB with ⟨hmemBA, hstrike, rfl⟩
    exact ⟨tsE, sellC, buyC, buyP, hmemSA, hmemBA, rfl, rfl, hstrike, hbp,
      hbppos⟩
  · refine ⟨?_, rfl, rfl, ?_, ?_, rfl, rfl, by decide⟩ <;>
      with_unfolding_all first | rfl | decide

/-- Witness for C10: the general buy-leg constraint instantiated on the
`goodDay` trade. -/
theorem c10_legs_need_not_share_expiration_witness :
    ∃ tsEntry sellC buyC bp,
      sellC ∈ activeCallsOf goodDay ∧ buyC ∈ activeCallsOf goodDay ∧
      (⟨goodTrade, 0, 1, 11/20, 1/4, 11/20⟩ : ExtTrade).sellId = sellC.oid ∧
      (⟨goodTrade, 0, 1, 11/20, 1/4, 11/20⟩ : ExtTrade).buyId = buyC.oid ∧
      sellC.strike + 5 ≤ buyC.strike ∧
      firstPrice (entryOptsOf goodDay tsEntry) tsEntry buyC.oid = some bp ∧
      0 < bp :=
  c10_legs_need_not_share_expiration.1 deltaFnEx ivFnEx goodDay
    ⟨goodTrade, 0, 1, 11/20, 1/4, 11/20⟩ (by with_unfolding_all rfl)

end Options
